import Mathlib

/-!
Verification of the GOP Attendance Tracker identity-resolution and
attendance-aggregation engine.

The development shallowly embeds the Google Apps Script sources:
* `MatchAssignUniqueCodes.js` — `extractNumericBel`, `normalize`,
  `matchOrAssignBelCodes` (map building, id generation, record formatting);
* `CalculateAttndnc` (reproduced in the repository README) —
  `calculateAttendanceStats`;
* `ActivityLevel` (`updateActivityLevels` row classification).

JavaScript runtime values that flow through these functions are modelled by
a small value type `JSVal`; JS `Number` values that are integers become
`JSVal.num`, every other non-string non-null value (booleans, objects,
non-integer numbers) is `JSVal.other` carrying its `toString` rendering,
which is all the embedded code ever observes of such values.
-/

namespace AttendanceTracker

/-! ## Character and string primitives (models of the JS built-ins used) -/

/-- Whitespace recognised by the model of `String.prototype.trim`
(the ASCII whitespace characters that occur in spreadsheet data). -/
def jsIsWs (c : Char) : Bool :=
  c = ' ' || c = '\t' || c = '\n' || c = '\r' || c = Char.ofNat 11 || c = Char.ofNat 12

/-- Model of `trim` on the character list: drop whitespace from both ends. -/
def jsTrimList (l : List Char) : List Char :=
  ((l.dropWhile jsIsWs).reverse.dropWhile jsIsWs).reverse

/-- Model of `String.prototype.trim`. -/
def jsTrim (s : String) : String :=
  ⟨jsTrimList s.data⟩

/-- The uppercase/lowercase letter pairs folded by `toLowerCase`
(the ASCII range, which is what names in the sheets use). -/
def lowerPairs : List (Char × Char) :=
  [('A', 'a'), ('B', 'b'), ('C', 'c'), ('D', 'd'), ('E', 'e'), ('F', 'f'),
   ('G', 'g'), ('H', 'h'), ('I', 'i'), ('J', 'j'), ('K', 'k'), ('L', 'l'),
   ('M', 'm'), ('N', 'n'), ('O', 'o'), ('P', 'p'), ('Q', 'q'), ('R', 'r'),
   ('S', 's'), ('T', 't'), ('U', 'u'), ('V', 'v'), ('W', 'w'), ('X', 'x'),
   ('Y', 'y'), ('Z', 'z')]

/-- Model of `toLowerCase` on a single character. -/
def jsToLowerChar (c : Char) : Char :=
  (lowerPairs.lookup c).getD c

/-- Model of `String.prototype.toLowerCase`. -/
def jsToLower (s : String) : String :=
  ⟨s.data.map jsToLowerChar⟩

/-- Model of `parseInt(s, 10)` on a string of decimal digits. -/
def digitsToNat (l : List Char) : Nat :=
  l.foldl (fun a c => 10 * a + (c.toNat - '0'.toNat)) 0

/-- Model of `RegExp.prototype.test` for a plain-text pattern:
substring containment on character lists. -/
def containsSub (pat : List Char) : List Char → Bool
  | [] => pat.isEmpty
  | c :: t => pat.isPrefixOf (c :: t) || containsSub pat t

/-! ## JS values as seen by `MatchAssignUniqueCodes.js` -/

/-- The JavaScript values the resolver distinguishes: integer-valued
numbers, strings, `null`/`undefined`, and everything else (booleans,
objects, non-integer numbers), carrying its `toString` rendering. -/
inductive JSVal where
  | num (n : Int)
  | str (s : String)
  | nullish
  | other (repr : String)
deriving DecidableEq

/-- `extractNumericBel` (`MatchAssignUniqueCodes.js`, lines 8-38): an
integer number `>= 0` is returned as is; a string is trimmed and accepted
only if non-empty and purely decimal digits, in which case it is parsed;
every other value yields `null` (here `none`). -/
def extractNumericBel : JSVal → Option Nat
  | .num n => if 0 ≤ n then some n.toNat else none
  | .str s =>
      let t := (jsTrim s).data
      if t ≠ [] ∧ t.all Char.isDigit then some (digitsToNat t) else none
  | .nullish => none
  | .other _ => none

/-- `normalize` (`MatchAssignUniqueCodes.js`, line 73):
`name?.toString().trim().toLowerCase()`.  Optional chaining returns
`undefined` (here `none`) on `null`/`undefined`; otherwise the value's
string rendering is trimmed and lower-cased. -/
def normalize : JSVal → Option String
  | .num n => some (jsToLower (jsTrim (toString n)))
  | .str s => some (jsToLower (jsTrim s))
  | .nullish => none
  | .other r => some (jsToLower (jsTrim r))

/-- JS truthiness of a normalized key: `undefined` and `""` are falsy. -/
def truthyKey : Option String → Bool
  | none => false
  | some s => s ≠ ""

/-- A sheet row: a dense array of cell values.  Out-of-range access in JS
yields `undefined`, modelled by defaulting to `JSVal.nullish`. -/
abbrev Row := List JSVal

/-- Cell access `row[i]` with the JS out-of-range behaviour. -/
def getV (r : Row) (i : Nat) : JSVal :=
  r.getD i .nullish

/-! ## Identity resolution (`matchOrAssignBelCodes`, steps 1-2)

The `belMap` JS `Map` is modelled as an association list into which a key
is inserted only when absent, so `List.lookup` retrieves the first-seen
binding.  The `allUsedCodes` JS `Set` is a duplicate-free list. -/

/-- State built by steps 1-2: the name-to-id map and the used-id set. -/
structure ResCtx where
  belMap : List (String × Nat)
  used : List Nat
deriving DecidableEq

/-- `Set.prototype.add`: insert a number unless already present. -/
def addUsed (u : List Nat) (n : Nat) : List Nat :=
  if n ∈ u then u else n :: u

/-- Step 1 body, one Directory row (`MatchAssignUniqueCodes.js` 77-99):
needs more than 2 columns, id in column B (`row[1]`), name in column C
(`row[2]`); with a truthy name and a numeric id, the id joins the used set
and the name maps to it when not yet mapped. -/
def procDirRow (c : ResCtx) (row : Row) : ResCtx :=
  if 2 < row.length then
    match normalize (getV row 2), extractNumericBel (getV row 1) with
    | some k, some id =>
        if k = "" then c
        else
          { belMap := if (c.belMap.lookup k).isSome then c.belMap
                      else (k, id) :: c.belMap,
            used := addUsed c.used id }
    | _, _ => c
  else c

/-- Step 2 body, one attendance row (`MatchAssignUniqueCodes.js` 110-125):
needs more than 1 column, id in column A (`row[0]`), name in column B
(`row[1]`); a numeric id always joins the used set, and maps the name
when the name is truthy and not yet mapped. -/
def procAttRow (c : ResCtx) (row : Row) : ResCtx :=
  if 1 < row.length then
    match extractNumericBel (getV row 0) with
    | some id =>
        { used := addUsed c.used id,
          belMap :=
            match normalize (getV row 1) with
            | some k =>
                if k = "" then c.belMap
                else if (c.belMap.lookup k).isSome then c.belMap
                else (k, id) :: c.belMap
            | none => c.belMap }
    | none => c
  else c

/-- The attendance rows in processing order: Event Attendance data rows
followed by Service Attendance data rows (`attendanceDataRaw`, lines
106-108; each `slice(1)` drops the header row). -/
def attRows (eData sData : List Row) : List Row :=
  eData.drop 1 ++ sData.drop 1

/-- Steps 1-2 (`matchOrAssignBelCodes` lines 75-126): fold the Directory
data rows, then the attendance rows, starting from an empty map and set.
The precedence order is Directory, then Event Attendance, then Service
Attendance. -/
def buildCtx (dData eData sData : List Row) : ResCtx :=
  (attRows eData sData).foldl procAttRow ((dData.drop 1).foldl procDirRow ⟨[], []⟩)

/-- Step 3 (lines 129-134): the largest number seen among the used codes,
`0` when there are none. -/
def highestFound (u : List Nat) : Nat :=
  u.foldl max 0

/-- Step 4, `generateBEL` (lines 141-155).  The loop tries `counter`; on a
miss it returns the code, adds it to the set, and advances the counter; on
a hit it advances the counter and throws once the counter passes
`highestFoundNum + 20000` (the `AllocationExhausted` safety break).
Termination: the counter strictly approaches the safety bound. -/
def genBEL (used : List Nat) (counter highest : Nat) : Except Unit (Nat × List Nat × Nat) :=
  if counter ∈ used then
    if highest + 20000 < counter + 1 then .error ()
    else genBEL used (counter + 1) highest
  else .ok (counter, addUsed used counter, counter + 1)
termination_by highest + 20000 - counter
decreasing_by omega

/-- Step 5 run state.  `gens` is a ghost trace recording, for each id the
generator produced, the used-id set at the moment of generation; it exists
only to state freshness and is never read by the algorithm. -/
structure RunCtx where
  belMap : List (String × Nat)
  used : List Nat
  counter : Nat
  highest : Nat
  gens : List (Nat × List Nat)
  results : List Row
deriving DecidableEq

/-- Step 5 output formatting (lines 179-207): an 11-column event-log row
keeps its fields; an 8-column service-log row is reshaped with the fixed
"Sunday Service"/"Service" event fields; anything else is dropped.
The JS `typeof row[i] !== 'undefined'` guards always hold for the dense
rows `getValues()` returns once the length test passes. -/
def formatRow (id : Nat) (row : Row) : Option Row :=
  if 11 ≤ row.length then
    some [.num id, getV row 1, getV row 2, getV row 3, getV row 4, getV row 5,
          getV row 6, getV row 7, getV row 8, getV row 9, getV row 10]
  else if 8 ≤ row.length then
    some [.num id, getV row 1, .str "Sunday Service", .str "Service", getV row 2,
          getV row 3, getV row 6, .str "", .str "", .str "", getV row 4]
  else none

/-- Append the formatted row to the results when the row's shape is
recognised; otherwise the row is skipped (after id resolution, as in the
source). -/
def pushResult (c : RunCtx) (id : Nat) (row : Row) : RunCtx :=
  match formatRow id row with
  | some out => { c with results := c.results ++ [out] }
  | none => c

/-- Step 5 body, one attendance row (lines 159-209): skip rows without a
truthy name; otherwise resolve the id from the map or generate a fresh
one (recording the new mapping), then format. -/
def resolveRowStep (c : RunCtx) (row : Row) : Except Unit RunCtx :=
  if row.length < 2 then .ok c
  else
    match normalize (getV row 1) with
    | none => .ok c
    | some k =>
      if k = "" then .ok c
      else
        match c.belMap.lookup k with
        | some id => .ok (pushResult c id row)
        | none =>
          match genBEL c.used c.counter c.highest with
          | .error e => .error e
          | .ok (id, u2, cnt2) =>
              .ok (pushResult
                    { c with belMap := (k, id) :: c.belMap, used := u2,
                             counter := cnt2, gens := c.gens ++ [(id, c.used)] }
                    id row)

/-- The run state entering step 5: the step 1-2 map and used set, the
counter initialised to `highestFoundNum + 1`, and empty traces. -/
def initRunCtx (dData eData sData : List Row) : RunCtx :=
  let rc := buildCtx dData eData sData
  let h := highestFound rc.used
  ⟨rc.belMap, rc.used, h + 1, h, [], []⟩

/-- The whole of `matchOrAssignBelCodes` after data loading, with the
final run state exposed (the source returns only `results`). -/
def matchOrAssignRun (dData eData sData : List Row) : Except Unit RunCtx :=
  (attRows eData sData).foldlM resolveRowStep (initRunCtx dData eData sData)

/-- `matchOrAssignBelCodes` (lines 61-213): the formatted 11-column rows,
or the `AllocationExhausted` error.  The data sets are parameters here;
the source's `getDataFromSheets` failure path (returning `[]` before any
processing) is outside the resolution algorithm. -/
def matchOrAssignBelCodes (dData eData sData : List Row) : Except Unit (List Row) :=
  (matchOrAssignRun dData eData sData).map (·.results)

/-- An observation in the sense of the spec: a row together with a
non-empty normalized matchKey and a numerically extracted id, read at the
given name/id column positions. -/
def obsOf (nameIdx idIdx : Nat) (row : Row) : Option (String × Nat) :=
  match normalize (getV row nameIdx) with
  | some k => if k = "" then none else (extractNumericBel (getV row idIdx)).map (fun id => (k, id))
  | none => none

/-- All keyed observations carrying ids, in the precedence order the code
processes them: Directory (name column C, id column B), then Event
Attendance, then Service Attendance (name column B, id column A). -/
def obsList (dData eData sData : List Row) : List (String × Nat) :=
  (dData.drop 1).filterMap (obsOf 2 1)
    ++ (eData.drop 1).filterMap (obsOf 1 0)
    ++ (sData.drop 1).filterMap (obsOf 1 0)

/-- The id of the first observation for a key in a list of observations. -/
def firstObs (l : List (String × Nat)) (k : String) : Option Nat :=
  (l.find? (fun p => p.1 = k)).map (·.2)

/-! ## Attendance aggregation (`calculateAttendanceStats`)

The aggregator consumes the formatted 11-column rows.  A successfully
parsed timestamp is a calendar date-time `SDate`; `new Date(...)` parsing
of raw cells is modelled by an `Option SDate` field (`none` for values
whose parse is `NaN`).  Wall-clock `now` is an explicit parameter. -/

/-- A valid calendar date-time as the aggregator observes it:
`getTime()` as a totally ordered instant, `getFullYear`, `getMonth`
(0-11), and the `toDateString()` rendering identifying the calendar day. -/
structure SDate where
  time : Int
  year : Int
  month : Nat
  dayKey : String
deriving DecidableEq

/-- One formatted 11-column row as the aggregator reads it
(README lines 85-90): grouping key `String(row[0])`, full name `row[1]`,
event name `row[2]` and id `row[3]` when they are strings, role `row[9]`
when a string, and the timestamp parse of `row[10]`. -/
structure RawRow where
  bel : String
  name : String
  eventName : Option String
  eventId : Option String
  role : Option String
  ts : Option SDate
deriving DecidableEq

/-- `isSundayService` (README line 117): the event name is a string and
the case-insensitive regex `/sunday service/i` matches it, i.e. the
lower-cased name contains the substring `"sunday service"`. -/
def isSundayService (eventName : Option String) : Bool :=
  match eventName with
  | some s => containsSub "sunday service".data (jsToLower s).data
  | none => false

/-- `isVolunteer` (README line 118): the role is a string whose
lower-casing contains `"volunteer"`. -/
def isVolunteerOf (role : Option String) : Bool :=
  match role with
  | some r => containsSub "volunteer".data (jsToLower r).data
  | none => false

/-- `eventKey` (README lines 124-126): Sunday-Service rows key on the
calendar day, every other row keys on event name and id with the
`UnknownEvent`/`UnknownID` fallbacks for non-string cells. -/
def eventKeyOf (eventName eventId : Option String) (d : SDate) : String :=
  if isSundayService eventName then "sunday service-" ++ d.dayKey
  else (eventName.getD "UnknownEvent") ++ "-" ++ (eventId.getD "UnknownID")

/-- The record object built per surviving row (README lines 130-139). -/
structure Rec where
  bel : String
  name : String
  time : Int
  year : Int
  month : Nat
  quarter : Nat
  eventKey : String
  isVolunteer : Bool
deriving DecidableEq

/-- Build the record for a row whose timestamp parsed to `d`. -/
def mkRec (r : RawRow) (d : SDate) : Rec :=
  { bel := r.bel, name := r.name, time := d.time, year := d.year,
    month := d.month, quarter := d.month / 3,
    eventKey := eventKeyOf r.eventName r.eventId d,
    isVolunteer := isVolunteerOf r.role }

/-- The rows surviving date validation (README lines 110-113), as records,
in input order. -/
def survived (rows : List RawRow) : List Rec :=
  rows.filterMap (fun r => r.ts.map (mkRec r))

/-- Stable insertion into a list sorted by descending timestamp. -/
def insertDesc (r : Rec) : List Rec → List Rec
  | [] => [r]
  | x :: xs => if x.time ≤ r.time then r :: x :: xs else x :: insertDesc r xs

/-- Model of `records.sort((a, b) => b.date.getTime() - a.date.getTime())`
(README line 184): the stable descending sort by timestamp.  Stable
insertion sort produces the same list as any stable sort with this
comparator. -/
def sortDesc : List Rec → List Rec
  | [] => []
  | x :: xs => insertDesc x (sortDesc xs)

/-- `records[0]` after the descending sort: the most recent record
(README line 188), `none` for an empty group. -/
def mostRecent (rs : List Rec) : Option Rec :=
  (sortDesc rs).head?

/-- `lastEventKey.split('-')[0]` (README lines 201-203): the part of the
key before the first hyphen (the whole key when there is none). -/
def firstSeg (s : String) : String :=
  ⟨s.data.takeWhile (fun c => c ≠ '-')⟩

/-- One summary row (README lines 211-222), with the two name-placeholder
columns omitted (they are constant `""`).  `lastDate` is the timestamp of
the most recent record, `none` standing for the `''` initialiser. -/
structure SummaryRow where
  bel : String
  fullName : String
  quarterCount : Nat
  monthCount : Nat
  volunteerCount : Nat
  lastDate : Option Int
  lastEventName : String
  totalUniqueEvents : Nat
deriving DecidableEq

/-- Per-identity summary (README lines 154-222): distinct event keys over
all time, over the current month and quarter of the current year, the
current-year volunteer count, and the most recent record's name, date and
event-name fragment. -/
def summarize (now : SDate) (b : String) (rs : List Rec) : SummaryRow :=
  let cy := now.year
  let cm := now.month
  let cq := now.month / 3
  let uniq := (rs.map (·.eventKey)).toFinset
  let monthE := ((rs.filter (fun r => r.year = cy ∧ r.month = cm)).map (·.eventKey)).toFinset
  let quarterE := ((rs.filter (fun r => r.year = cy ∧ r.quarter = cq)).map (·.eventKey)).toFinset
  let vol := rs.countP (fun r => r.isVolunteer ∧ r.year = cy)
  match mostRecent rs with
  | some m =>
      { bel := b, fullName := m.name, quarterCount := quarterE.card,
        monthCount := monthE.card, volunteerCount := vol,
        lastDate := some m.time, lastEventName := firstSeg m.eventKey,
        totalUniqueEvents := uniq.card }
  | none =>
      { bel := b, fullName := "", quarterCount := quarterE.card,
        monthCount := monthE.card, volunteerCount := vol,
        lastDate := none, lastEventName := "",
        totalUniqueEvents := uniq.card }

/-- Group membership for an identity: the surviving records with that
grouping key, in input order (the JS `Map` keeps per-key insertion
order). -/
def groupOf (rows : List RawRow) (b : String) : List Rec :=
  (survived rows).filter (fun r => r.bel = b)

/-- Keys in first-insertion order, as iterated by the JS `Map`: each key
is appended the first time it is seen. -/
def eraseDupFirst (l : List String) : List String :=
  l.foldl (fun acc x => if x ∈ acc then acc else acc ++ [x]) []

/-- The identities with at least one surviving record, in first-seen
order. -/
def belsOf (rows : List RawRow) : List String :=
  eraseDupFirst ((survived rows).map (·.bel))

/-- The per-row summary for one identity. -/
def summaryFor (rows : List RawRow) (now : SDate) (b : String) : SummaryRow :=
  summarize now b (groupOf rows b)

/-- `calculateAttendanceStats` over already-formatted rows, with the
wall clock injected: one summary row per identity that has surviving
records, in first-seen order. -/
def calculateAttendanceStats (rows : List RawRow) (now : SDate) : List SummaryRow :=
  (belsOf rows).map (summaryFor rows now)

/-! ## Activity classification (`updateActivityLevels`)

A stats-sheet cell is a number or a string (`getValues()` renders empty
cells as `""`).  `Number(...)` is modelled on the forms activity counters
take: an empty-after-trim string is `0`, an optionally signed digit
string parses exactly, any other string is `NaN` (`none`). -/

/-- A cell of columns E/K of the stats sheet. -/
inductive CellVal where
  | num (n : Int)
  | str (s : String)
deriving DecidableEq

/-- The `toString` rendering of a cell. -/
def cellToString : CellVal → String
  | .num n => toString n
  | .str s => s

/-- Model of `Number(cell)`: `none` is `NaN`. -/
def jsNumberOf : CellVal → Option Int
  | .num n => some n
  | .str s =>
      match (jsTrim s).data with
      | [] => some 0
      | '-' :: ds => if ds ≠ [] ∧ ds.all Char.isDigit then some (-(digitsToNat ds : Int)) else none
      | '+' :: ds => if ds ≠ [] ∧ ds.all Char.isDigit then some ((digitsToNat ds : Int)) else none
      | ds => if ds.all Char.isDigit then some ((digitsToNat ds : Int)) else none

/-- `ActivityLevel` lines 52-53: the cell is the empty string, or its
trimmed rendering is non-empty and its `Number` conversion is `NaN`. -/
def blankOrInvalid (c : CellVal) : Bool :=
  c = .str "" || (jsTrim (cellToString c) ≠ "" && (jsNumberOf c).isNone)

/-- The per-row classification of `updateActivityLevels` (`ActivityLevel`
lines 43-68): sum the two counters with `NaN` contributing `0`; blank when
both inputs are blank/invalid, else Core at 12, Active at 3, Inactive
below. -/
def updateActivityLevel (e k : CellVal) : String :=
  let valE := (jsNumberOf e).getD 0
  let valK := (jsNumberOf k).getD 0
  let combined := valE + valK
  if blankOrInvalid e && blankOrInvalid k then ""
  else if 12 ≤ combined then "Core"
  else if 3 ≤ combined then "Active"
  else "Inactive"

/-! ## Lemmas about the string primitives -/

theorem dropWhile_idem (p : Char → Bool) (l : List Char) :
    (l.dropWhile p).dropWhile p = l.dropWhile p := by
  induction l with
  | nil => rfl
  | cons a t ih =>
      by_cases h : p a
      · simpa [List.dropWhile_cons, h] using ih
      · simp [List.dropWhile_cons, h]

/-- Dropping trailing elements satisfying `p`. -/
def stripBack (p : Char → Bool) (l : List Char) : List Char :=
  (l.reverse.dropWhile p).reverse

theorem stripBack_front (p : Char → Bool) (l : List Char) :
    stripBack p l <+: l := by
  have h := List.dropWhile_suffix (l := l.reverse) p
  have h2 := List.IsSuffix.reverse h
  simpa [stripBack] using h2

theorem stripBack_idem (p : Char → Bool) (l : List Char) :
    stripBack p (stripBack p l) = stripBack p l := by
  simp [stripBack, dropWhile_idem]

theorem dropWhile_eq_self_of_front {p : Char → Bool} {m t : List Char}
    (hm : m.dropWhile p = m) (ht : t <+: m) : t.dropWhile p = t := by
  cases t with
  | nil => rfl
  | cons a t2 =>
      obtain ⟨rest, hrest⟩ := ht
      by_cases h : p a
      · exfalso
        have hlen : (m.dropWhile p).length ≤ (t2 ++ rest).length := by
          rw [← hrest]
          calc (List.dropWhile p ((a :: t2) ++ rest)).length
              = (List.dropWhile p (t2 ++ rest)).length := by
                simp [List.dropWhile_cons, h]
            _ ≤ (t2 ++ rest).length := (List.dropWhile_suffix p).length_le
        rw [hm, ← hrest] at hlen
        simp at hlen
      · simp [List.dropWhile_cons, h]

theorem jsTrimList_idem (l : List Char) :
    jsTrimList (jsTrimList l) = jsTrimList l := by
  have hdef : ∀ m, jsTrimList m = stripBack jsIsWs (m.dropWhile jsIsWs) := by
    intro m; rfl
  rw [hdef, hdef l]
  have h1 : (stripBack jsIsWs (l.dropWhile jsIsWs)).dropWhile jsIsWs
      = stripBack jsIsWs (l.dropWhile jsIsWs) :=
    dropWhile_eq_self_of_front (dropWhile_idem _ _) (stripBack_front _ _)
  rw [h1, stripBack_idem]

theorem mem_of_lookup_eq_some {l : List (Char × Char)} {a b : Char}
    (h : l.lookup a = some b) : (a, b) ∈ l := by
  induction l with
  | nil => simp [List.lookup] at h
  | cons p t ih =>
      obtain ⟨x, y⟩ := p
      rw [List.lookup_cons] at h
      cases hbeq : (a == x) with
      | false =>
          simp only [hbeq] at h
          exact List.mem_cons_of_mem _ (ih h)
      | true =>
          simp only [hbeq] at h
          have hax : a = x := by simpa using hbeq
          have hyb : y = b := by simpa using h
          exact List.mem_cons.mpr (Or.inl (by simp [hax, hyb]))

theorem lowerPairs_facts :
    ∀ p ∈ lowerPairs, lowerPairs.lookup p.2 = none ∧
      jsIsWs p.1 = false ∧ jsIsWs p.2 = false := by decide

theorem jsToLowerChar_idem (c : Char) :
    jsToLowerChar (jsToLowerChar c) = jsToLowerChar c := by
  unfold jsToLowerChar
  cases h : lowerPairs.lookup c with
  | none => simp [h]
  | some v =>
      have hv := lowerPairs_facts _ (mem_of_lookup_eq_some h)
      simp [h, hv.1]

theorem jsIsWs_jsToLowerChar (c : Char) :
    jsIsWs (jsToLowerChar c) = jsIsWs c := by
  unfold jsToLowerChar
  cases h : lowerPairs.lookup c with
  | none => simp [h]
  | some v =>
      have hv := lowerPairs_facts _ (mem_of_lookup_eq_some h)
      have hc : jsIsWs c = false := hv.2.1
      simp [h, hv.2.2, hc]

theorem jsTrimList_map_lower (l : List Char) :
    jsTrimList (l.map jsToLowerChar) = (jsTrimList l).map jsToLowerChar := by
  have hcomp : (jsIsWs ∘ jsToLowerChar) = jsIsWs := funext jsIsWs_jsToLowerChar
  unfold jsTrimList
  rw [List.dropWhile_map, hcomp, ← List.map_reverse, List.dropWhile_map, hcomp,
    ← List.map_reverse]

theorem jsTrim_jsToLower (s : String) :
    jsTrim (jsToLower s) = jsToLower (jsTrim s) := by
  show (⟨jsTrimList (s.data.map jsToLowerChar)⟩ : String) = ⟨(jsTrimList s.data).map jsToLowerChar⟩
  rw [jsTrimList_map_lower]

theorem jsToLower_idem (s : String) :
    jsToLower (jsToLower s) = jsToLower s := by
  show (⟨(s.data.map jsToLowerChar).map jsToLowerChar⟩ : String) = ⟨s.data.map jsToLowerChar⟩
  rw [List.map_map]
  congr 1
  exact List.map_congr_left (fun c _ => jsToLowerChar_idem c)

theorem jsTrim_idem (s : String) : jsTrim (jsTrim s) = jsTrim s := by
  show (⟨jsTrimList (jsTrimList s.data)⟩ : String) = ⟨jsTrimList s.data⟩
  rw [jsTrimList_idem]

theorem dropWhile_append_of_all {p : Char → Bool} {l : List Char} (m : List Char)
    (h : l.all p) : (l ++ m).dropWhile p = m.dropWhile p := by
  induction l with
  | nil => rfl
  | cons a t ih =>
      simp only [List.all_cons, Bool.and_eq_true] at h
      simpa [List.dropWhile_cons, h.1] using ih h.2

theorem stripBack_append_of_all {p : Char → Bool} {suf : List Char} (l : List Char)
    (h : suf.all p) : stripBack p (l ++ suf) = stripBack p l := by
  unfold stripBack
  rw [List.reverse_append, dropWhile_append_of_all _ (by simpa using h)]

theorem jsTrimList_pad (s pre suf : List Char)
    (hpre : pre.all jsIsWs) (hsuf : suf.all jsIsWs) :
    jsTrimList (pre ++ s ++ suf) = jsTrimList s := by
  have hdef : ∀ m, jsTrimList m = stripBack jsIsWs (m.dropWhile jsIsWs) := by
    intro m; rfl
  rw [hdef, hdef s, List.append_assoc, dropWhile_append_of_all _ hpre]
  rw [List.dropWhile_append]
  by_cases h : (s.dropWhile jsIsWs).isEmpty
  · rw [if_pos h]
    have hs : s.dropWhile jsIsWs = [] := by simpa [List.isEmpty_iff] using h
    have hsuf2 : suf.dropWhile jsIsWs = [] := by
      rw [List.dropWhile_eq_nil_iff]
      intro x hx
      exact (List.all_eq_true.mp hsuf x hx)
    rw [hs, hsuf2]
  · rw [if_neg h, stripBack_append_of_all _ hsuf]

/-! ## C2 and C9: id extraction and name normalization -/

/-- C2: `extractNumericBel` accepts exactly the integer numbers `>= 0`
(returned unchanged) and the strings whose trimmed content is non-empty
and purely decimal digits (parsed, so `"045"` gives `45`); a string whose
trimmed content has any non-digit character (such as `"BEL123"`) gives
`null`, as do the empty string, negative integers, `null`/`undefined`,
and every non-string non-number value (`JSVal.other`, which also covers
non-integer JS numbers).  The string clauses are the function's cases in
order: surrounding whitespace is removed before the digits test. -/
theorem extractNumericBel_spec :
    (∀ s : String, (jsTrim s).data ≠ [] → (jsTrim s).data.all Char.isDigit →
      extractNumericBel (.str s) = some (digitsToNat (jsTrim s).data)) ∧
    (∀ s : String, (∃ c ∈ (jsTrim s).data, ¬ c.isDigit) →
      extractNumericBel (.str s) = none) ∧
    (∀ n : Int, 0 ≤ n → extractNumericBel (.num n) = some n.toNat) ∧
    (∀ n : Int, n < 0 → extractNumericBel (.num n) = none) ∧
    extractNumericBel (.str "") = none ∧
    extractNumericBel .nullish = none ∧
    (∀ r, extractNumericBel (.other r) = none) ∧
    extractNumericBel (.str "045") = some 45 ∧
    extractNumericBel (.str "BEL123") = none := by
  refine ⟨?_, ?_, ?_, ?_, by decide, rfl, fun r => rfl, by decide, by decide⟩
  · intro s h1 h2
    simp [extractNumericBel, h1, h2]
  · intro s ⟨c, hc, hcd⟩
    have : ¬ (jsTrim s).data.all Char.isDigit := by
      intro hall
      exact hcd (List.all_eq_true.mp hall c hc)
    simp [extractNumericBel, this]
  · intro n hn
    simp [extractNumericBel, hn]
  · intro n hn
    simp [extractNumericBel, not_le.mpr hn]

/-- Witness for C2 at concrete inputs. -/
theorem extractNumericBel_spec_witness :
    extractNumericBel (.str " 12 ") = some 12 ∧
    extractNumericBel (.str "x1") = none ∧
    extractNumericBel (.num 7) = some 7 := by
  refine ⟨?_, ?_, ?_⟩
  · have h := extractNumericBel_spec.1 (" 12 ") (by decide) (by decide)
    rwa [show digitsToNat (jsTrim (" 12 ")).data = 12 by decide] at h
  · exact extractNumericBel_spec.2.1 ("x1") ⟨'x', by decide, by decide⟩
  · exact extractNumericBel_spec.2.2.1 7 (by decide)

/-- C9: `normalize` is a total pure function; every produced key is a
fixpoint of trimming and lower-casing (so the result is trimmed and in a
single case), surrounding whitespace never changes the key, the only
input with no key (`none`) is `null`/`undefined`, and the empty string
yields the empty key, which is falsy — callers treat it as unmatchable. -/
theorem normalize_spec :
    (∀ v t, normalize v = some t → jsTrim t = t ∧ jsToLower t = t) ∧
    (∀ v, normalize v = none ↔ v = .nullish) ∧
    (∀ (s : String) (pre suf : List Char), pre.all jsIsWs → suf.all jsIsWs →
      normalize (.str ⟨pre ++ s.data ++ suf⟩) = normalize (.str s)) ∧
    normalize .nullish = none ∧
    normalize (.str "") = some "" ∧
    truthyKey (normalize .nullish) = false ∧
    truthyKey (normalize (.str "")) = false := by
  have hfix : ∀ x : String, jsTrim (jsToLower (jsTrim x)) = jsToLower (jsTrim x) ∧
      jsToLower (jsToLower (jsTrim x)) = jsToLower (jsTrim x) := by
    intro x
    constructor
    · rw [jsTrim_jsToLower, jsTrim_idem]
    · rw [jsToLower_idem]
  refine ⟨?_, ?_, ?_, rfl, by decide, rfl, by decide⟩
  · intro v t hv
    cases v with
    | num n =>
        simp only [normalize, Option.some_inj] at hv
        subst hv; exact hfix _
    | str s =>
        simp only [normalize, Option.some_inj] at hv
        subst hv; exact hfix _
    | nullish => simp [normalize] at hv
    | other r =>
        simp only [normalize, Option.some_inj] at hv
        subst hv; exact hfix _
  · intro v
    cases v <;> simp [normalize]
  · intro s pre suf hpre hsuf
    have htr : jsTrim (⟨pre ++ s.data ++ suf⟩ : String) = jsTrim s := by
      show (⟨jsTrimList (pre ++ s.data ++ suf)⟩ : String) = ⟨jsTrimList s.data⟩
      rw [jsTrimList_pad _ _ _ hpre hsuf]
    simp only [normalize]
    rw [htr]

/-- Witness for C9 at concrete inputs. -/
theorem normalize_spec_witness :
    (jsTrim (" jane ") ≠ (" jane ") ∧
      normalize (.str ⟨" ".data ++ ("Jane").data ++ " ".data⟩) = normalize (.str ("Jane"))) ∧
    (normalize (.str (" A ")) = some ("a") ∧ jsTrim ("a") = ("a") ∧ jsToLower ("a") = ("a")) := by
  refine ⟨⟨by decide, normalize_spec.2.2.1 ("Jane") (" ".data) (" ".data) (by decide) (by decide)⟩, ?_⟩
  have h1 : normalize (.str (" A ")) = some ("a") := by decide
  exact ⟨h1, (normalize_spec.1 _ _ h1).1, (normalize_spec.1 _ _ h1).2⟩

/-! ## C5: activity classification -/

/-- C5: when both counters are blank or non-numeric text the label is the
empty string; otherwise, with `NaN` counting as `0`, the summed counters
give Core at 12 or more, Active from 3 up to 12, and Inactive below 3.
The code's blank-or-invalid test on a string cell agrees with
"empty, or text whose `Number` conversion is `NaN`", and a numeric cell
is never blank or invalid.  The spec's scenarios: `E=10, K=5` gives
"Core", and `E=""`, `K="abc"` gives the empty label. -/
theorem updateActivityLevels_spec :
    (∀ e k, blankOrInvalid e = true → blankOrInvalid k = true →
      updateActivityLevel e k = "") ∧
    (∀ e k, ¬(blankOrInvalid e = true ∧ blankOrInvalid k = true) →
      ((12 ≤ (jsNumberOf e).getD 0 + (jsNumberOf k).getD 0 →
          updateActivityLevel e k = "Core") ∧
       (3 ≤ (jsNumberOf e).getD 0 + (jsNumberOf k).getD 0 →
          (jsNumberOf e).getD 0 + (jsNumberOf k).getD 0 < 12 →
          updateActivityLevel e k = "Active") ∧
       ((jsNumberOf e).getD 0 + (jsNumberOf k).getD 0 < 3 →
          updateActivityLevel e k = "Inactive"))) ∧
    (∀ s : String, blankOrInvalid (.str s) = (s = "" || (jsNumberOf (.str s)).isNone)) ∧
    (∀ n : Int, blankOrInvalid (.num n) = false) ∧
    updateActivityLevel (.num 10) (.num 5) = "Core" ∧
    updateActivityLevel (.str "") (.str "abc") = "" := by
  refine ⟨?_, ?_, ?_, ?_, by decide, by decide⟩
  · intro e k he hk
    simp [updateActivityLevel, he, hk]
  · intro e k hnot
    have hb : (blankOrInvalid e && blankOrInvalid k) = false := by
      cases he : blankOrInvalid e <;> cases hk2 : blankOrInvalid k <;> simp_all
    refine ⟨fun h1 => ?_, fun h1 h2 => ?_, fun h1 => ?_⟩
    · simp [updateActivityLevel, hb, h1]
    · simp [updateActivityLevel, hb, h1, not_le.mpr h2]
    · have h12 : ¬ 12 ≤ (jsNumberOf e).getD 0 + (jsNumberOf k).getD 0 := by omega
      have h3 : ¬ 3 ≤ (jsNumberOf e).getD 0 + (jsNumberOf k).getD 0 := by omega
      simp [updateActivityLevel, hb, h12, h3]
  · intro s
    by_cases hs : s = ""
    · subst hs; decide
    · by_cases hn : (jsNumberOf (.str s)).isNone
      · have hdata : (jsTrim s).data ≠ [] := by
          intro hd
          rw [show jsNumberOf (.str s)
              = (match (jsTrim s).data with
                 | [] => some 0
                 | '-' :: ds => if ds ≠ [] ∧ ds.all Char.isDigit
                     then some (-(digitsToNat ds : Int)) else none
                 | '+' :: ds => if ds ≠ [] ∧ ds.all Char.isDigit
                     then some ((digitsToNat ds : Int)) else none
                 | ds => if ds.all Char.isDigit then some ((digitsToNat ds : Int)) else none)
              from rfl, hd] at hn
          simp at hn
        have htr : (jsTrim s ≠ "") := by
          intro hh
          exact hdata (by rw [hh])
        have hbl : blankOrInvalid (.str s) = true := by
          simp [blankOrInvalid, cellToString, htr, hn]
        rw [hbl]
        simp [hs, hn]
      · have hn2 : (jsNumberOf (.str s)).isNone = false := by
          cases h2 : (jsNumberOf (.str s)).isNone
          · rfl
          · exact absurd h2 hn
        simp [blankOrInvalid, cellToString, hs, hn2]
  · intro n
    simp [blankOrInvalid, jsNumberOf]

/-- Witness for C5 at concrete inputs. -/
theorem updateActivityLevels_spec_witness :
    updateActivityLevel (.str "") (.str " ninety ") = "" ∧
    updateActivityLevel (.num 9) (.num 3) = "Core" ∧
    updateActivityLevel (.str ("2")) (.num 1) = "Active" ∧
    updateActivityLevel (.num 1) (.str ("1")) = "Inactive" := by
  refine ⟨updateActivityLevels_spec.1 _ _ (by decide) (by decide), ?_, ?_, ?_⟩
  · exact (updateActivityLevels_spec.2.1 (.num 9) (.num 3) (by decide)).1 (by decide)
  · exact (updateActivityLevels_spec.2.1 (.str ("2")) (.num 1) (by decide)).2.1 (by decide) (by decide)
  · exact (updateActivityLevels_spec.2.1 (.num 1) (.str ("1")) (by decide)).2.2 (by decide)

/-! ## Lemmas about the aggregator -/

theorem insertDesc_perm (r : Rec) (l : List Rec) :
    (insertDesc r l).Perm (r :: l) := by
  induction l with
  | nil => rfl
  | cons x xs ih =>
      by_cases h : x.time ≤ r.time
      · simp [insertDesc, h]
      · simp only [insertDesc, if_neg h]
        exact (List.Perm.cons x ih).trans (List.Perm.swap r x xs)

theorem sortDesc_perm (l : List Rec) : (sortDesc l).Perm l := by
  induction l with
  | nil => rfl
  | cons x xs ih =>
      exact (insertDesc_perm x (sortDesc xs)).trans (List.Perm.cons x ih)

theorem insertDesc_pairwise (r : Rec) (l : List Rec)
    (hl : l.Pairwise (fun a b => b.time ≤ a.time)) :
    (insertDesc r l).Pairwise (fun a b => b.time ≤ a.time) := by
  induction l with
  | nil => simp [insertDesc]
  | cons x xs ih =>
      by_cases h : x.time ≤ r.time
      · simp only [insertDesc, if_pos h]
        refine List.pairwise_cons.mpr ⟨?_, hl⟩
        intro y hy
        rcases List.mem_cons.mp hy with hy | hy
        · exact hy ▸ h
        · exact le_trans (List.rel_of_pairwise_cons hl hy) h
      · simp only [insertDesc, if_neg h]
        refine List.pairwise_cons.mpr ⟨?_, ih (List.Pairwise.of_cons hl)⟩
        intro y hy
        have hy2 : y ∈ r :: xs := (insertDesc_perm r xs).mem_iff.mp hy
        rcases List.mem_cons.mp hy2 with hy2 | hy2
        · exact hy2 ▸ le_of_not_le h
        · exact List.rel_of_pairwise_cons hl hy2

theorem sortDesc_pairwise (l : List Rec) :
    (sortDesc l).Pairwise (fun a b => b.time ≤ a.time) := by
  induction l with
  | nil => simp [sortDesc]
  | cons x xs ih => exact insertDesc_pairwise x (sortDesc xs) ih

theorem mostRecent_spec {l : List Rec} {mr : Rec} (h : mostRecent l = some mr) :
    mr ∈ l ∧ ∀ x ∈ l, x.time ≤ mr.time := by
  unfold mostRecent at h
  cases hs : sortDesc l with
  | nil => rw [hs] at h; simp at h
  | cons a rest =>
      rw [hs] at h
      simp only [List.head?_cons, Option.some_inj] at h
      have hperm := sortDesc_perm l
      have hp := sortDesc_pairwise l
      rw [hs] at hperm hp
      constructor
      · rw [← h]
        exact hperm.mem_iff.mp (List.mem_cons_self a rest)
      · intro x hx
        rw [← h]
        have hx2 : x ∈ a :: rest := hperm.mem_iff.mpr hx
        rcases List.mem_cons.mp hx2 with hx2 | hx2
        · rw [hx2]
        · exact List.rel_of_pairwise_cons hp hx2

theorem mostRecent_isSome {l : List Rec} (h : l ≠ []) :
    ∃ mr, mostRecent l = some mr := by
  unfold mostRecent
  cases hs : sortDesc l with
  | nil =>
      exfalso
      have hlen := (sortDesc_perm l).length_eq
      rw [hs] at hlen
      exact h (List.length_eq_zero.mp hlen.symm)
  | cons a rest => exact ⟨a, by simp [hs]⟩

theorem mostRecent_unique_max {l : List Rec} {r : Rec} (hr : r ∈ l)
    (hmax : ∀ x ∈ l, x ≠ r → x.time < r.time) : mostRecent l = some r := by
  obtain ⟨mr, hmr⟩ := mostRecent_isSome (List.ne_nil_of_mem hr)
  obtain ⟨hmem, hle⟩ := mostRecent_spec hmr
  by_cases heq : mr = r
  · exact heq ▸ hmr
  · exact absurd (hle r hr) (not_le.mpr (hmax mr hmem heq))

theorem toFinset_eq_of_perm (l1 l2 : List String) (h : l1.Perm l2) :
    l1.toFinset = l2.toFinset := by
  ext x
  simp [List.mem_toFinset, h.mem_iff]

theorem groupOf_perm {rows1 rows2 : List RawRow} (b : String)
    (h : rows1.Perm rows2) : (groupOf rows1 b).Perm (groupOf rows2 b) :=
  List.Perm.filter _ (List.Perm.filterMap _ h)

theorem summarize_fields (now : SDate) (b : String) (rs : List Rec) :
    (summarize now b rs).bel = b ∧
    (summarize now b rs).quarterCount
      = ((rs.filter (fun r => r.year = now.year ∧ r.quarter = now.month / 3)).map
          (·.eventKey)).toFinset.card ∧
    (summarize now b rs).monthCount
      = ((rs.filter (fun r => r.year = now.year ∧ r.month = now.month)).map
          (·.eventKey)).toFinset.card ∧
    (summarize now b rs).volunteerCount
      = rs.countP (fun r => r.isVolunteer ∧ r.year = now.year) ∧
    (summarize now b rs).totalUniqueEvents = (rs.map (·.eventKey)).toFinset.card := by
  cases h : mostRecent rs <;> simp [summarize, h]

theorem mem_eraseDupFirst_aux (x : String) :
    ∀ (l acc : List String),
      (x ∈ l.foldl (fun acc x => if x ∈ acc then acc else acc ++ [x]) acc
        ↔ x ∈ acc ∨ x ∈ l) := by
  intro l
  induction l with
  | nil => intro acc; simp
  | cons y ys ih =>
      intro acc
      rw [List.foldl_cons, ih]
      by_cases hy : y ∈ acc
      · simp only [if_pos hy, List.mem_cons]
        constructor
        · rintro (h | h)
          · exact Or.inl h
          · exact Or.inr (Or.inr h)
        · rintro (h | h | h)
          · exact Or.inl h
          · exact Or.inl (h ▸ hy)
          · exact Or.inr h
      · simp only [if_neg hy, List.mem_append, List.mem_singleton, List.mem_cons]
        tauto

theorem mem_eraseDupFirst (x : String) (l : List String) :
    x ∈ eraseDupFirst l ↔ x ∈ l := by
  unfold eraseDupFirst
  rw [mem_eraseDupFirst_aux]
  simp

theorem survived_filter (rows : List RawRow) :
    survived (rows.filter (fun r => r.ts.isSome)) = survived rows := by
  induction rows with
  | nil => rfl
  | cons r t ih =>
      cases h : r.ts with
      | none =>
          simp only [survived, List.filter_cons, h, Option.isSome_none,
            Bool.false_eq_true, if_neg, List.filterMap_cons, Option.map_none]
          simpa [survived] using ih
      | some d =>
          simp only [survived, List.filter_cons, h, Option.isSome_some, if_pos,
            List.filterMap_cons, Option.map_some]
          simpa [survived, h] using congrArg (List.cons (mkRec r d)) ih

/-! ## C4: totals dominate windowed counts -/

/-- C4: in every summary row the all-time distinct-event count is at
least the current-quarter count and at least the current-month count:
the month and quarter key sets are subsets of the all-time key set. -/
theorem totalUnique_ge_window_counts (rows : List RawRow) (now : SDate)
    (srow : SummaryRow) (h : srow ∈ calculateAttendanceStats rows now) :
    srow.quarterCount ≤ srow.totalUniqueEvents ∧
    srow.monthCount ≤ srow.totalUniqueEvents := by
  obtain ⟨b, hb, hrow⟩ := List.mem_map.mp h
  subst hrow
  have hsub : ∀ (p : Rec → Bool) (rs : List Rec),
      ((rs.filter p).map (·.eventKey)).toFinset ⊆ (rs.map (·.eventKey)).toFinset := by
    intro p rs x hx
    rw [List.mem_toFinset] at hx ⊢
    obtain ⟨r, hr, hrx⟩ := List.mem_map.mp hx
    exact List.mem_map.mpr ⟨r, (List.mem_filter.mp hr).1, hrx⟩
  have hf := summarize_fields now b (groupOf rows b)
  unfold summaryFor
  rw [hf.2.1, hf.2.2.1, hf.2.2.2.2]
  exact ⟨Finset.card_le_card (hsub _ _), Finset.card_le_card (hsub _ _)⟩

/-- Witness for C4 at a concrete input. -/
theorem totalUnique_ge_window_counts_witness :
    (calculateAttendanceStats
        [⟨"7", "A", some ("Picnic"), some ("E1"), none, some ⟨5, 2025, 3, "d1"⟩⟩,
         ⟨"7", "A", some ("Picnic"), some ("E2"), none, some ⟨9, 2024, 3, "d2"⟩⟩]
        ⟨10, 2025, 3, "d3"⟩).length = 1 ∧
    ∀ srow ∈ calculateAttendanceStats
        [⟨"7", "A", some ("Picnic"), some ("E1"), none, some ⟨5, 2025, 3, "d1"⟩⟩,
         ⟨"7", "A", some ("Picnic"), some ("E2"), none, some ⟨9, 2024, 3, "d2"⟩⟩]
        ⟨10, 2025, 3, "d3"⟩,
      srow.quarterCount ≤ srow.totalUniqueEvents ∧
        srow.monthCount ≤ srow.totalUniqueEvents := by
  refine ⟨by decide, ?_⟩
  intro srow h
  exact totalUnique_ge_window_counts _ _ _ h

/-! ## C7: unparseable timestamps are excluded, no empty summaries -/

/-- C7: rows whose timestamp does not parse are removed before any
grouping or aggregation — the output over any input equals the output
over only the parseable rows — and every emitted summary row's identity
has at least one surviving event. -/
theorem unparseable_excluded_no_empty_summary :
    (∀ (rows : List RawRow) (now : SDate),
      calculateAttendanceStats rows now
        = calculateAttendanceStats (rows.filter (fun r => r.ts.isSome)) now) ∧
    (∀ (rows : List RawRow) (now : SDate) (srow : SummaryRow),
      srow ∈ calculateAttendanceStats rows now →
      ∃ row ∈ rows, row.ts.isSome ∧ row.bel = srow.bel) := by
  constructor
  · intro rows now
    unfold calculateAttendanceStats
    have h1 : belsOf (rows.filter (fun r => r.ts.isSome)) = belsOf rows := by
      unfold belsOf
      rw [survived_filter]
    have h2 : summaryFor (rows.filter (fun r => r.ts.isSome)) now = summaryFor rows now := by
      funext b
      unfold summaryFor groupOf
      rw [survived_filter]
    rw [h1, h2]
  · intro rows now srow h
    obtain ⟨b, hb, hrow⟩ := List.mem_map.mp h
    have hbel : srow.bel = b := by
      rw [← hrow]
      exact (summarize_fields now b (groupOf rows b)).1
    unfold belsOf at hb
    rw [mem_eraseDupFirst] at hb
    obtain ⟨rec, hrec, hrecb⟩ := List.mem_map.mp hb
    obtain ⟨row, hrowmem, hrowrec⟩ := List.mem_filterMap.mp hrec
    cases hts : row.ts with
    | none => simp [hts] at hrowrec
    | some d =>
        simp only [hts] at hrowrec
        have hmk : mkRec row d = rec := by simpa using hrowrec
        refine ⟨row, hrowmem, by simp [hts], ?_⟩
        rw [hbel, ← hrecb, ← hmk]
        rfl

/-- Witness for C7 at a concrete input: a group whose only rows have an
invalid timestamp produces no summary row. -/
theorem unparseable_excluded_witness :
    calculateAttendanceStats
        [⟨"9", "B", some ("Ev"), some ("E1"), none, none⟩] ⟨10, 2025, 3, "d3"⟩
      = calculateAttendanceStats
        ([⟨"9", "B", some ("Ev"), some ("E1"), none, none⟩].filter
          (fun r => r.ts.isSome)) ⟨10, 2025, 3, "d3"⟩ ∧
    calculateAttendanceStats
        [⟨"9", "B", some ("Ev"), some ("E1"), none, none⟩] ⟨10, 2025, 3, "d3"⟩ = [] ∧
    (∀ srow ∈ calculateAttendanceStats
        [⟨"7", "A", some ("Ev"), some ("E1"), none, some ⟨5, 2025, 3, "d1"⟩⟩]
        ⟨10, 2025, 3, "d3"⟩,
      ∃ row ∈ [(⟨"7", "A", some ("Ev"), some ("E1"), none, some ⟨5, 2025, 3, "d1"⟩⟩ : RawRow)],
        row.ts.isSome ∧ row.bel = srow.bel) := by
  refine ⟨unparseable_excluded_no_empty_summary.1 _ _, by decide, ?_⟩
  intro srow h
  exact unparseable_excluded_no_empty_summary.2 _ _ _ h

/-! ## C8: order independence of the aggregation -/

theorem summarize_mostRecent_fields (now : SDate) (b : String) {rs : List Rec}
    {m : Rec} (h : mostRecent rs = some m) :
    (summarize now b rs).fullName = m.name ∧
    (summarize now b rs).lastDate = some m.time ∧
    (summarize now b rs).lastEventName = firstSeg m.eventKey := by
  simp [summarize, h]

/-- C8: shuffling the input rows changes no identity's windowed counts,
volunteer count or total (the key sets and counts are permutation
invariants of each group), and the most-recent selection is by timestamp
comparison: the selected record always attains the group's maximal
timestamp, and whenever one record strictly dominates the timestamps of
the rest of its group, that same record — hence the same `displayName`,
`lastAttendedDate` and `lastEventName` — is selected under any
permutation of the input. -/
theorem aggregate_perm_invariant :
    (∀ (rows1 rows2 : List RawRow) (now : SDate) (b : String), rows1.Perm rows2 →
      ((b ∈ belsOf rows1 ↔ b ∈ belsOf rows2) ∧
       (summaryFor rows1 now b).quarterCount = (summaryFor rows2 now b).quarterCount ∧
       (summaryFor rows1 now b).monthCount = (summaryFor rows2 now b).monthCount ∧
       (summaryFor rows1 now b).volunteerCount = (summaryFor rows2 now b).volunteerCount ∧
       (summaryFor rows1 now b).totalUniqueEvents
         = (summaryFor rows2 now b).totalUniqueEvents)) ∧
    (∀ (rows : List RawRow) (b : String) (mr : Rec),
      mostRecent (groupOf rows b) = some mr →
      mr ∈ groupOf rows b ∧ ∀ x ∈ groupOf rows b, x.time ≤ mr.time) ∧
    (∀ (rows1 rows2 : List RawRow) (b : String) (r : Rec), rows1.Perm rows2 →
      r ∈ groupOf rows1 b → (∀ x ∈ groupOf rows1 b, x ≠ r → x.time < r.time) →
      mostRecent (groupOf rows2 b) = some r) ∧
    (∀ (rows1 rows2 : List RawRow) (now : SDate) (b : String) (r : Rec),
      rows1.Perm rows2 →
      r ∈ groupOf rows1 b → (∀ x ∈ groupOf rows1 b, x ≠ r → x.time < r.time) →
      ((summaryFor rows1 now b).fullName = (summaryFor rows2 now b).fullName ∧
       (summaryFor rows1 now b).lastDate = (summaryFor rows2 now b).lastDate ∧
       (summaryFor rows1 now b).lastEventName
         = (summaryFor rows2 now b).lastEventName)) := by
  have hsel : ∀ (rows1 rows2 : List RawRow) (b : String) (r : Rec), rows1.Perm rows2 →
      r ∈ groupOf rows1 b → (∀ x ∈ groupOf rows1 b, x ≠ r → x.time < r.time) →
      mostRecent (groupOf rows2 b) = some r := by
    intro rows1 rows2 b r h hr hmax
    have hg := groupOf_perm b h
    refine mostRecent_unique_max (hg.mem_iff.mp hr) ?_
    intro x hx hxr
    exact hmax x (hg.mem_iff.mpr hx) hxr
  refine ⟨?_, ?_, hsel, ?_⟩
  · intro rows1 rows2 now b h
    have hg := groupOf_perm b h
    have hf1 := summarize_fields now b (groupOf rows1 b)
    have hf2 := summarize_fields now b (groupOf rows2 b)
    refine ⟨?_, ?_, ?_, ?_, ?_⟩
    · have hsp : (survived rows1).Perm (survived rows2) := List.Perm.filterMap _ h
      have hmp := hsp.map (fun r => r.bel)
      unfold belsOf
      rw [mem_eraseDupFirst, mem_eraseDupFirst]
      exact hmp.mem_iff
    · unfold summaryFor
      rw [hf1.2.1, hf2.2.1,
        toFinset_eq_of_perm _ _ ((hg.filter _).map (fun r => r.eventKey))]
    · unfold summaryFor
      rw [hf1.2.2.1, hf2.2.2.1,
        toFinset_eq_of_perm _ _ ((hg.filter _).map (fun r => r.eventKey))]
    · unfold summaryFor
      rw [hf1.2.2.2.1, hf2.2.2.2.1]
      exact List.Perm.countP_eq _ hg
    · unfold summaryFor
      rw [hf1.2.2.2.2, hf2.2.2.2.2,
        toFinset_eq_of_perm _ _ (hg.map (fun r => r.eventKey))]
  · intro rows b mr h
    exact mostRecent_spec h
  · intro rows1 rows2 now b r h hr hmax
    have h1 : mostRecent (groupOf rows1 b) = some r :=
      hsel rows1 rows1 b r (List.Perm.refl _) hr hmax
    have h2 : mostRecent (groupOf rows2 b) = some r := hsel rows1 rows2 b r h hr hmax
    have e1 := summarize_mostRecent_fields now b h1
    have e2 := summarize_mostRecent_fields now b h2
    unfold summaryFor
    rw [e1.1, e1.2.1, e1.2.2, e2.1, e2.2.1, e2.2.2]
    exact ⟨rfl, rfl, rfl⟩

/-- Witness for C8 at a concrete pair of shuffled inputs. -/
theorem aggregate_perm_invariant_witness :
    ((("7") ∈ belsOf
        [⟨"7", "A", some ("Ev"), some ("E1"), none, some ⟨5, 2025, 3, "d1"⟩⟩,
         ⟨"7", "B", some ("Ev"), some ("E2"), none, some ⟨9, 2025, 3, "d2"⟩⟩]
      ↔ ("7") ∈ belsOf
        [⟨"7", "B", some ("Ev"), some ("E2"), none, some ⟨9, 2025, 3, "d2"⟩⟩,
         ⟨"7", "A", some ("Ev"), some ("E1"), none, some ⟨5, 2025, 3, "d1"⟩⟩]) ∧
     (summaryFor
        [⟨"7", "A", some ("Ev"), some ("E1"), none, some ⟨5, 2025, 3, "d1"⟩⟩,
         ⟨"7", "B", some ("Ev"), some ("E2"), none, some ⟨9, 2025, 3, "d2"⟩⟩]
        ⟨10, 2025, 3, "d3"⟩ ("7")).quarterCount
      = (summaryFor
        [⟨"7", "B", some ("Ev"), some ("E2"), none, some ⟨9, 2025, 3, "d2"⟩⟩,
         ⟨"7", "A", some ("Ev"), some ("E1"), none, some ⟨5, 2025, 3, "d1"⟩⟩]
        ⟨10, 2025, 3, "d3"⟩ ("7")).quarterCount ∧
     (summaryFor
        [⟨"7", "A", some ("Ev"), some ("E1"), none, some ⟨5, 2025, 3, "d1"⟩⟩,
         ⟨"7", "B", some ("Ev"), some ("E2"), none, some ⟨9, 2025, 3, "d2"⟩⟩]
        ⟨10, 2025, 3, "d3"⟩ ("7")).monthCount
      = (summaryFor
        [⟨"7", "B", some ("Ev"), some ("E2"), none, some ⟨9, 2025, 3, "d2"⟩⟩,
         ⟨"7", "A", some ("Ev"), some ("E1"), none, some ⟨5, 2025, 3, "d1"⟩⟩]
        ⟨10, 2025, 3, "d3"⟩ ("7")).monthCount ∧
     (summaryFor
        [⟨"7", "A", some ("Ev"), some ("E1"), none, some ⟨5, 2025, 3, "d1"⟩⟩,
         ⟨"7", "B", some ("Ev"), some ("E2"), none, some ⟨9, 2025, 3, "d2"⟩⟩]
        ⟨10, 2025, 3, "d3"⟩ ("7")).volunteerCount
      = (summaryFor
        [⟨"7", "B", some ("Ev"), some ("E2"), none, some ⟨9, 2025, 3, "d2"⟩⟩,
         ⟨"7", "A", some ("Ev"), some ("E1"), none, some ⟨5, 2025, 3, "d1"⟩⟩]
        ⟨10, 2025, 3, "d3"⟩ ("7")).volunteerCount ∧
     (summaryFor
        [⟨"7", "A", some ("Ev"), some ("E1"), none, some ⟨5, 2025, 3, "d1"⟩⟩,
         ⟨"7", "B", some ("Ev"), some ("E2"), none, some ⟨9, 2025, 3, "d2"⟩⟩]
        ⟨10, 2025, 3, "d3"⟩ ("7")).totalUniqueEvents
      = (summaryFor
        [⟨"7", "B", some ("Ev"), some ("E2"), none, some ⟨9, 2025, 3, "d2"⟩⟩,
         ⟨"7", "A", some ("Ev"), some ("E1"), none, some ⟨5, 2025, 3, "d1"⟩⟩]
        ⟨10, 2025, 3, "d3"⟩ ("7")).totalUniqueEvents) :=
  aggregate_perm_invariant.1
    [⟨"7", "A", some ("Ev"), some ("E1"), none, some ⟨5, 2025, 3, "d1"⟩⟩,
     ⟨"7", "B", some ("Ev"), some ("E2"), none, some ⟨9, 2025, 3, "d2"⟩⟩]
    [⟨"7", "B", some ("Ev"), some ("E2"), none, some ⟨9, 2025, 3, "d2"⟩⟩,
     ⟨"7", "A", some ("Ev"), some ("E1"), none, some ⟨5, 2025, 3, "d1"⟩⟩]
    ⟨10, 2025, 3, "d3"⟩ ("7") (List.Perm.swap _ _ _)

/-! ## C6: which events get the calendar-day instance key -/

/-- C6 counterexample: the recurring-service test is the case-insensitive
substring regex `/sunday service/i`, not equality with the literal
`"Sunday Service"`.  The event name `"Sunday Service Picnic"` is not the
literal value, yet its instance key is the calendar-day key, not
`eventName + eventId`. -/
theorem eventKey_literal_counterexample :
    isSundayService (some ("Sunday Service Picnic")) = true ∧
    (some ("Sunday Service Picnic") : Option String) ≠ some ("Sunday Service") ∧
    eventKeyOf (some ("Sunday Service Picnic")) (some ("E1")) ⟨0, 2025, 2, "Sat Mar 01 2025"⟩
      = "sunday service-" ++ "Sat Mar 01 2025" ∧
    eventKeyOf (some ("Sunday Service Picnic")) (some ("E1")) ⟨0, 2025, 2, "Sat Mar 01 2025"⟩
      ≠ "Sunday Service Picnic" ++ "-" ++ "E1" := by
  refine ⟨by decide, by decide, by decide, by decide⟩

/-- C6 amended: the instance key is the calendar-day key exactly when the
event name is a string containing `"sunday service"` case-insensitively
(which includes the literal `"Sunday Service"`); all other events key on
`eventName-eventId` with the unknown-field fallbacks.  Day-keyed events
coincide for equal calendar days, and non-recurring keys ignore the date
entirely. -/
theorem eventKey_recurring_amended :
    (∀ en ei d, isSundayService en = true →
      eventKeyOf en ei d = "sunday service-" ++ d.dayKey) ∧
    (∀ en ei d, isSundayService en = false →
      eventKeyOf en ei d = (en.getD ("UnknownEvent")) ++ "-" ++ (ei.getD ("UnknownID"))) ∧
    (∀ en, isSundayService en = true ↔
      ∃ s, en = some s ∧ containsSub ("sunday service").data (jsToLower s).data = true) ∧
    (∀ en ei d1 d2, isSundayService en = true → d1.dayKey = d2.dayKey →
      eventKeyOf en ei d1 = eventKeyOf en ei d2) ∧
    (∀ en ei d1 d2, isSundayService en = false →
      eventKeyOf en ei d1 = eventKeyOf en ei d2) ∧
    isSundayService (some ("Sunday Service")) = true := by
  refine ⟨?_, ?_, ?_, ?_, ?_, by decide⟩
  · intro en ei d h
    simp [eventKeyOf, h]
  · intro en ei d h
    simp [eventKeyOf, h]
  · intro en
    cases en with
    | none => simp [isSundayService]
    | some s => simp [isSundayService]
  · intro en ei d1 d2 h hd
    simp [eventKeyOf, h, hd]
  · intro en ei d1 d2 h
    simp [eventKeyOf, h]

/-- Witness for the amended C6 at concrete inputs. -/
theorem eventKey_recurring_amended_witness :
    eventKeyOf (some ("Sunday Service")) (some ("Service")) ⟨0, 2025, 2, "Sun Mar 02 2025"⟩
      = "sunday service-" ++ "Sun Mar 02 2025" ∧
    eventKeyOf (some ("Easter Brunch")) (some ("E9")) ⟨0, 2025, 2, "Sun Mar 02 2025"⟩
      = "Easter Brunch" ++ "-" ++ "E9" :=
  ⟨eventKey_recurring_amended.1 _ _ _ (by decide),
   eventKey_recurring_amended.2.1 _ _ _ (by decide)⟩

/-! ## Lemmas about the id generator and the resolution run -/

theorem mem_addUsed {x n : Nat} {u : List Nat} : x ∈ addUsed u n ↔ x = n ∨ x ∈ u := by
  unfold addUsed
  split
  · rename_i h
    constructor
    · exact fun hx => Or.inr hx
    · rintro (rfl | hx)
      · exact h
      · exact hx
  · simp [List.mem_cons]

/-- Under freshness (every used id below the counter) the generator
returns its counter on the first iteration. -/
theorem genBEL_of_fresh {used : List Nat} {counter highest : Nat}
    (h : ∀ x ∈ used, x < counter) :
    genBEL used counter highest = .ok (counter, addUsed used counter, counter + 1) := by
  have hnot : counter ∉ used := fun hc => lt_irrefl _ (h _ hc)
  rw [genBEL]
  simp [hnot]

/-- The step-5 run invariant: the counter dominates the used set, every
generated id dominated the used set of its moment, the generated ids are
strictly increasing, and all of them are below the counter. -/
def RunInv (c : RunCtx) : Prop :=
  (∀ x ∈ c.used, x < c.counter) ∧
  (∀ p ∈ c.gens, ∀ x ∈ p.2, x < p.1) ∧
  ((c.gens.map (·.1)).Pairwise (· < ·)) ∧
  (∀ p ∈ c.gens, p.1 < c.counter)

theorem pushResult_fields (c : RunCtx) (id : Nat) (row : Row) :
    (pushResult c id row).belMap = c.belMap ∧ (pushResult c id row).used = c.used ∧
    (pushResult c id row).counter = c.counter ∧ (pushResult c id row).gens = c.gens ∧
    (pushResult c id row).highest = c.highest := by
  unfold pushResult
  cases formatRow id row <;> exact ⟨rfl, rfl, rfl, rfl, rfl⟩

theorem RunInv_pushResult {c : RunCtx} (hInv : RunInv c) (id : Nat) (row : Row) :
    RunInv (pushResult c id row) := by
  unfold RunInv
  rw [(pushResult_fields c id row).2.1, (pushResult_fields c id row).2.2.1,
    (pushResult_fields c id row).2.2.2.1]
  exact hInv

theorem resolveRowStep_ok {c : RunCtx} (hInv : RunInv c) (row : Row) :
    ∃ c2, resolveRowStep c row = .ok c2 ∧ RunInv c2 ∧ c2.highest = c.highest := by
  by_cases h2 : row.length < 2
  · exact ⟨c, by simp [resolveRowStep, h2], hInv, rfl⟩
  cases hn : normalize (getV row 1) with
  | none => exact ⟨c, by simp [resolveRowStep, h2, hn], hInv, rfl⟩
  | some k =>
      by_cases hk : k = ""
      · exact ⟨c, by simp [resolveRowStep, h2, hn, hk], hInv, rfl⟩
      cases hl : c.belMap.lookup k with
      | some id =>
          exact ⟨pushResult c id row, by simp [resolveRowStep, h2, hn, hk, hl],
            RunInv_pushResult hInv id row, (pushResult_fields c id row).2.2.2.2⟩
      | none =>
          have hInv2 : RunInv
              { c with belMap := (k, c.counter) :: c.belMap,
                       used := addUsed c.used c.counter, counter := c.counter + 1,
                       gens := c.gens ++ [(c.counter, c.used)] } := by
            refine ⟨?_, ?_, ?_, ?_⟩
            · intro x hx
              rcases mem_addUsed.mp hx with rfl | hx
              · exact Nat.lt_succ_self _
              · exact Nat.lt_succ_of_lt (hInv.1 x hx)
            · intro p hp
              rcases List.mem_append.mp hp with hp | hp
              · exact hInv.2.1 p hp
              · rw [List.mem_singleton] at hp
                subst hp
                exact hInv.1
            · rw [List.map_append, List.pairwise_append]
              refine ⟨hInv.2.2.1, List.pairwise_singleton _ _, ?_⟩
              intro a ha b hb
              simp only [List.map_cons, List.map_nil, List.mem_singleton] at hb
              subst hb
              obtain ⟨p, hp, hpa⟩ := List.mem_map.mp ha
              exact hpa ▸ hInv.2.2.2 p hp
            · intro p hp
              rcases List.mem_append.mp hp with hp | hp
              · exact Nat.lt_succ_of_lt (hInv.2.2.2 p hp)
              · rw [List.mem_singleton] at hp
                subst hp
                exact Nat.lt_succ_self _
          refine ⟨pushResult
              { c with belMap := (k, c.counter) :: c.belMap,
                       used := addUsed c.used c.counter, counter := c.counter + 1,
                       gens := c.gens ++ [(c.counter, c.used)] } c.counter row, ?_,
            RunInv_pushResult hInv2 c.counter row,
            (pushResult_fields _ c.counter row).2.2.2.2⟩
          simp [resolveRowStep, h2, hn, hk, hl, genBEL_of_fresh hInv.1]

theorem foldlM_resolve_ok {c : RunCtx} (hInv : RunInv c) (rows : List Row) :
    ∃ c2, List.foldlM resolveRowStep c rows = .ok c2 ∧ RunInv c2 ∧ c2.highest = c.highest := by
  induction rows generalizing c with
  | nil => exact ⟨c, rfl, hInv, rfl⟩
  | cons r t ih =>
      obtain ⟨c1, hstep, hInv1, hh1⟩ := resolveRowStep_ok hInv r
      obtain ⟨c2, hfold, hInv2, hh2⟩ := ih hInv1
      refine ⟨c2, ?_, hInv2, hh2.trans hh1⟩
      rw [List.foldlM_cons, hstep]
      exact hfold

theorem foldl_max_init_le (u : List Nat) (a : Nat) : a ≤ u.foldl max a := by
  induction u generalizing a with
  | nil => exact le_refl a
  | cons y t ih => exact le_trans (le_max_left a y) (ih (max a y))

theorem mem_le_foldl_max {x : Nat} {u : List Nat} (h : x ∈ u) (a : Nat) :
    x ≤ u.foldl max a := by
  induction u generalizing a with
  | nil => simp at h
  | cons y t ih =>
      rcases List.mem_cons.mp h with rfl | h
      · exact le_trans (le_max_right a x) (foldl_max_init_le t _)
      · exact ih h _

theorem foldl_max_mem (u : List Nat) (a : Nat) :
    u.foldl max a = a ∨ u.foldl max a ∈ u := by
  induction u generalizing a with
  | nil => exact Or.inl rfl
  | cons y t ih =>
      rcases ih (max a y) with h | h
      · rcases max_choice a y with hm | hm
        · exact Or.inl (by rw [List.foldl_cons, h, hm])
        · exact Or.inr (by rw [List.foldl_cons, h, hm]; exact List.mem_cons_self _ _)
      · exact Or.inr (List.mem_cons_of_mem _ h)

theorem foldl_max_le {u : List Nat} {m : Nat} (h : ∀ x ∈ u, x ≤ m) {a : Nat}
    (ha : a ≤ m) : u.foldl max a ≤ m := by
  induction u generalizing a with
  | nil => exact ha
  | cons y t ih =>
      exact ih (fun x hx => h x (List.mem_cons_of_mem _ hx))
        (max_le ha (h y (List.mem_cons_self _ _)))

theorem initRunCtx_inv (d e s : List Row) : RunInv (initRunCtx d e s) := by
  refine ⟨?_, ?_, ?_, ?_⟩
  · intro x hx
    exact Nat.lt_succ_of_le (mem_le_foldl_max hx 0)
  · intro p hp
    simp [initRunCtx] at hp
  · simp [initRunCtx]
  · intro p hp
    simp [initRunCtx] at hp

/-! ## C10: the generator's membership test and safety bound -/

/-- C10: in every run, the resolution never hits the `AllocationExhausted`
error, and at every point of the run the state the generator would be
invoked in satisfies `counter ∉ used`, so the generator's membership test
fails and generation returns on the first iteration. -/
theorem generator_first_iteration_safe :
    (∀ dData eData sData, ∃ out, matchOrAssignBelCodes dData eData sData = .ok out) ∧
    (∀ dData eData sData pre suf, attRows eData sData = pre ++ suf →
      ∃ c2, List.foldlM resolveRowStep (initRunCtx dData eData sData) pre = .ok c2 ∧
        c2.counter ∉ c2.used ∧
        genBEL c2.used c2.counter c2.highest
          = .ok (c2.counter, addUsed c2.used c2.counter, c2.counter + 1)) := by
  constructor
  · intro d e s
    obtain ⟨c2, h, _, _⟩ := foldlM_resolve_ok (initRunCtx_inv d e s) (attRows e s)
    refine ⟨c2.results, ?_⟩
    unfold matchOrAssignBelCodes matchOrAssignRun
    rw [h]
    rfl
  · intro d e s pre suf hsplit
    obtain ⟨c2, h, hInv, _⟩ := foldlM_resolve_ok (initRunCtx_inv d e s) pre
    exact ⟨c2, h, fun hmem => lt_irrefl _ (hInv.1 _ hmem), genBEL_of_fresh hInv.1⟩

/-- Witness for C10 at a concrete run. -/
theorem generator_first_iteration_safe_witness :
    ∃ c2, List.foldlM resolveRowStep
        (initRunCtx [[], [.nullish, .num 3, .str ("J")]]
          [[], [.num 3, .str ("J")], [.nullish, .str ("K")]] [[]])
        (attRows [[], [.num 3, .str ("J")], [.nullish, .str ("K")]] [[]]) = .ok c2 ∧
      c2.counter ∉ c2.used ∧
      genBEL c2.used c2.counter c2.highest
        = .ok (c2.counter, addUsed c2.used c2.counter, c2.counter + 1) :=
  generator_first_iteration_safe.2 [[], [.nullish, .num 3, .str ("J")]]
    [[], [.num 3, .str ("J")], [.nullish, .str ("K")]] [[]]
    (attRows [[], [.num 3, .str ("J")], [.nullish, .str ("K")]] [[]]) []
    (List.append_nil _).symm

/-! ## C1: freshness and distinctness of generated ids -/

/-- C1: the step-5 counter starts at `max(usedIds) + 1` (`1` when the
used-id set is empty); in every completed run, each id the generator
produced is strictly greater than every id in the used set at its moment
of generation (the ghost trace `gens`), and no two generated ids are
equal; and when the highest id in the combined used-id set is `1042`, a
row whose name has no mapping resolves to the fresh id `1043`. -/
theorem generated_ids_spec :
    (∀ dData eData sData, (buildCtx dData eData sData).used = [] →
      (initRunCtx dData eData sData).counter = 1) ∧
    (∀ dData eData sData, (buildCtx dData eData sData).used ≠ [] →
      ((initRunCtx dData eData sData).counter - 1 ∈ (buildCtx dData eData sData).used ∧
       ∀ x ∈ (buildCtx dData eData sData).used,
         x ≤ (initRunCtx dData eData sData).counter - 1)) ∧
    (∀ dData eData sData c2, matchOrAssignRun dData eData sData = .ok c2 →
      ((∀ p ∈ c2.gens, ∀ x ∈ p.2, x < p.1) ∧
       (c2.gens.map (·.1)).Pairwise (· ≠ ·))) ∧
    (∀ dData eData sData k row, 1042 ∈ (buildCtx dData eData sData).used →
      (∀ x ∈ (buildCtx dData eData sData).used, x ≤ 1042) →
      (buildCtx dData eData sData).belMap.lookup k = none →
      ¬ row.length < 2 → normalize (getV row 1) = some k → k ≠ "" →
      ∃ c2, resolveRowStep (initRunCtx dData eData sData) row = .ok c2 ∧
        c2.belMap.lookup k = some 1043) := by
  refine ⟨?_, ?_, ?_, ?_⟩
  · intro d e s h
    show highestFound (buildCtx d e s).used + 1 = 1
    rw [h]
    rfl
  · intro d e s h
    have hc : (initRunCtx d e s).counter - 1 = highestFound (buildCtx d e s).used := rfl
    rw [hc]
    constructor
    · rcases foldl_max_mem (buildCtx d e s).used 0 with h0 | hm
      · cases hu : (buildCtx d e s).used with
        | nil => exact absurd hu h
        | cons y t =>
            show highestFound (y :: t) ∈ y :: t
            have h0b : (y :: t).foldl max 0 = 0 := by rw [← hu]; exact h0
            have hyb : y ≤ (y :: t).foldl max 0 :=
              mem_le_foldl_max (List.mem_cons_self _ _) 0
            unfold highestFound
            rw [h0b]
            have hy0 : y = 0 := by omega
            rw [← hy0]
            exact List.mem_cons_self _ _
      · exact hm
    · intro x hx
      exact mem_le_foldl_max hx 0
  · intro d e s c2 hrun
    obtain ⟨c2x, hfold, hInv, _⟩ := foldlM_resolve_ok (initRunCtx_inv d e s) (attRows e s)
    unfold matchOrAssignRun at hrun
    rw [hfold] at hrun
    have hc : c2x = c2 := by
      injection hrun
    subst hc
    exact ⟨hInv.2.1, hInv.2.2.1.imp (fun hab => ne_of_lt hab)⟩
  · intro d e s k row h1042 hle hlk h2 hn hk
    have hf : highestFound (buildCtx d e s).used = 1042 :=
      le_antisymm (foldl_max_le hle (Nat.zero_le _)) (mem_le_foldl_max h1042 0)
    have hcnt : (initRunCtx d e s).counter = 1043 := by
      show highestFound (buildCtx d e s).used + 1 = 1043
      rw [hf]
    have hfresh : ∀ x ∈ (initRunCtx d e s).used, x < (initRunCtx d e s).counter :=
      (initRunCtx_inv d e s).1
    have hlk2 : (initRunCtx d e s).belMap.lookup k = none := hlk
    refine ⟨pushResult
        { initRunCtx d e s with
            belMap := (k, (initRunCtx d e s).counter) :: (initRunCtx d e s).belMap,
            used := addUsed (initRunCtx d e s).used (initRunCtx d e s).counter,
            counter := (initRunCtx d e s).counter + 1,
            gens := (initRunCtx d e s).gens
              ++ [((initRunCtx d e s).counter, (initRunCtx d e s).used)] }
        (initRunCtx d e s).counter row, ?_, ?_⟩
    · simp [resolveRowStep, h2, hn, hk, hlk2, genBEL_of_fresh hfresh]
    · rw [(pushResult_fields _ _ _).1, List.lookup_cons]
      simp [hcnt]

/-- Witness for C1 at a concrete input whose highest existing id is 1042. -/
theorem generated_ids_spec_witness :
    ∃ c2, resolveRowStep
        (initRunCtx [[], [.nullish, .num 1042, .str ("Jane")], [.nullish, .num 17, .str ("Bob")]]
          [[]] [[]])
        [.str (""), .str ("New Person")] = .ok c2 ∧
      c2.belMap.lookup ("new person") = some 1043 :=
  generated_ids_spec.2.2.2
    [[], [.nullish, .num 1042, .str ("Jane")], [.nullish, .num 17, .str ("Bob")]] [[]] [[]]
    ("new person") [.str (""), .str ("New Person")]
    (by decide) (by decide) (by decide) (by decide) (by decide) (by decide)

/-! ## Lemmas about the map-building pass (steps 1-2) -/

theorem getV_of_len_le {row : Row} {i : Nat} (h : row.length ≤ i) :
    getV row i = .nullish :=
  List.getD_eq_default _ _ h

theorem lt_length_of_normalize_some {row : Row} {ni : Nat} {k : String}
    (hn : normalize (getV row ni) = some k) : ni < row.length := by
  by_contra hlen
  push_neg at hlen
  rw [getV_of_len_le hlen] at hn
  simp [normalize] at hn

theorem obsOf_some_elim {ni ii : Nat} {row : Row} {k : String} {id : Nat}
    (h : obsOf ni ii row = some (k, id)) :
    normalize (getV row ni) = some k ∧ k ≠ "" ∧
      extractNumericBel (getV row ii) = some id := by
  cases hn : normalize (getV row ni) with
  | none =>
      rw [show obsOf ni ii row = none from by unfold obsOf; rw [hn]] at h
      simp at h
  | some k0 =>
      have h2 : (if k0 = "" then none
          else (extractNumericBel (getV row ii)).map (fun id => (k0, id)))
            = some (k, id) := by
        rw [← h]
        unfold obsOf
        rw [hn]
      by_cases hk : k0 = ""
      · rw [if_pos hk] at h2
        simp at h2
      · rw [if_neg hk] at h2
        cases he : extractNumericBel (getV row ii) with
        | none => rw [he] at h2; simp at h2
        | some id0 =>
            rw [he] at h2
            have hpair : k0 = k ∧ id0 = id := by
              simpa using h2
            obtain ⟨hp1, hp2⟩ := hpair
            subst hp1
            subst hp2
            exact ⟨rfl, hk, rfl⟩

theorem procDirRow_obs_some {c : ResCtx} {row : Row} {k : String} {id : Nat}
    (h : obsOf 2 1 row = some (k, id)) :
    procDirRow c row =
      { belMap := if (c.belMap.lookup k).isSome then c.belMap else (k, id) :: c.belMap,
        used := addUsed c.used id } := by
  obtain ⟨hn, hk, he⟩ := obsOf_some_elim h
  have hlen : 2 < row.length := lt_length_of_normalize_some hn
  simp [procDirRow, hlen, hn, he, hk]

theorem procDirRow_obs_none {c : ResCtx} {row : Row} (h : obsOf 2 1 row = none) :
    procDirRow c row = c := by
  by_cases hlen : 2 < row.length
  · cases hn : normalize (getV row 2) with
    | none => simp [procDirRow, hlen, hn]
    | some k0 =>
        cases he : extractNumericBel (getV row 1) with
        | none => simp [procDirRow, hlen, hn, he]
        | some id0 =>
            have hk : k0 = "" := by
              by_contra hk
              rw [show obsOf 2 1 row = some (k0, id0) from by
                simp [obsOf, hn, hk, he]] at h
              simp at h
            simp [procDirRow, hlen, hn, he, hk]
  · simp [procDirRow, hlen]

theorem procAttRow_obs_some {c : ResCtx} {row : Row} {k : String} {id : Nat}
    (h : obsOf 1 0 row = some (k, id)) :
    procAttRow c row =
      { belMap := if (c.belMap.lookup k).isSome then c.belMap else (k, id) :: c.belMap,
        used := addUsed c.used id } := by
  obtain ⟨hn, hk, he⟩ := obsOf_some_elim h
  have hlen : 1 < row.length := lt_length_of_normalize_some hn
  simp [procAttRow, hlen, hn, he, hk]

theorem procAttRow_obs_none_belMap {c : ResCtx} {row : Row} (h : obsOf 1 0 row = none) :
    (procAttRow c row).belMap = c.belMap := by
  by_cases hlen : 1 < row.length
  · cases he : extractNumericBel (getV row 0) with
    | none => simp [procAttRow, hlen, he]
    | some id0 =>
        cases hn : normalize (getV row 1) with
        | none => simp [procAttRow, hlen, he, hn]
        | some k0 =>
            have hk : k0 = "" := by
              by_contra hk
              rw [show obsOf 1 0 row = some (k0, id0) from by
                simp [obsOf, hn, hk, he]] at h
              simp at h
            simp [procAttRow, hlen, he, hn, hk]
  · simp [procAttRow, hlen]

theorem procDirRow_used_mono (c : ResCtx) (row : Row) :
    c.used ⊆ (procDirRow c row).used := by
  cases ho : obsOf 2 1 row with
  | none =>
      rw [procDirRow_obs_none ho]
      exact fun x hx => hx
  | some p =>
      obtain ⟨k, id⟩ := p
      rw [procDirRow_obs_some ho]
      intro x hx
      exact mem_addUsed.mpr (Or.inr hx)

theorem procAttRow_used_mono (c : ResCtx) (row : Row) :
    c.used ⊆ (procAttRow c row).used := by
  unfold procAttRow
  by_cases hlen : 1 < row.length
  · rw [if_pos hlen]
    cases he : extractNumericBel (getV row 0) with
    | none => simp [he]
    | some id =>
        simp only [he]
        intro x hx
        exact mem_addUsed.mpr (Or.inr hx)
  · rw [if_neg hlen]
    exact fun x hx => hx

theorem foldDir_used_mono (rows : List Row) :
    ∀ c : ResCtx, c.used ⊆ (rows.foldl procDirRow c).used := by
  induction rows with
  | nil => exact fun c x hx => hx
  | cons r t ih =>
      intro c x hx
      exact ih (procDirRow c r) (procDirRow_used_mono c r hx)

theorem foldAtt_used_mono (rows : List Row) :
    ∀ c : ResCtx, c.used ⊆ (rows.foldl procAttRow c).used := by
  induction rows with
  | nil => exact fun c x hx => hx
  | cons r t ih =>
      intro c x hx
      exact ih (procAttRow c r) (procAttRow_used_mono c r hx)

theorem foldDir_obs_used (rows : List Row) :
    ∀ (c : ResCtx) (k : String) (id : Nat),
      (k, id) ∈ rows.filterMap (obsOf 2 1) → id ∈ (rows.foldl procDirRow c).used := by
  induction rows with
  | nil => intro c k id h; simp at h
  | cons r t ih =>
      intro c k id h
      rw [List.filterMap_cons] at h
      cases ho : obsOf 2 1 r with
      | none =>
          rw [ho] at h
          exact ih _ k id h
      | some p =>
          rw [ho] at h
          rcases List.mem_cons.mp h with heq | h
          · obtain ⟨k0, id0⟩ := p
            injection heq with h1 h2
            subst h1
            subst h2
            rw [List.foldl_cons, procDirRow_obs_some ho]
            exact foldDir_used_mono t _ (mem_addUsed.mpr (Or.inl rfl))
          · rw [List.foldl_cons]
            exact ih _ k id h

theorem foldAtt_obs_used (rows : List Row) :
    ∀ (c : ResCtx) (k : String) (id : Nat),
      (k, id) ∈ rows.filterMap (obsOf 1 0) → id ∈ (rows.foldl procAttRow c).used := by
  induction rows with
  | nil => intro c k id h; simp at h
  | cons r t ih =>
      intro c k id h
      rw [List.filterMap_cons] at h
      cases ho : obsOf 1 0 r with
      | none =>
          rw [ho] at h
          exact ih _ k id h
      | some p =>
          rw [ho] at h
          rcases List.mem_cons.mp h with heq | h
          · obtain ⟨k0, id0⟩ := p
            injection heq with h1 h2
            subst h1
            subst h2
            rw [List.foldl_cons, procAttRow_obs_some ho]
            exact foldAtt_used_mono t _ (mem_addUsed.mpr (Or.inl rfl))
          · rw [List.foldl_cons]
            exact ih _ k id h

theorem lookup_update_or (m : List (String × Nat)) (k k0 : String) (id : Nat)
    (l : List (String × Nat)) :
    (((if (m.lookup k0).isSome then m else (k0, id) :: m).lookup k).or (firstObs l k))
      = ((m.lookup k).or (firstObs ((k0, id) :: l) k)) := by
  by_cases hkk : k = k0
  · subst hkk
    cases hl : m.lookup k with
    | some v =>
        simp [hl, firstObs]
    | none =>
        simp [hl, firstObs, List.lookup_cons, List.find?_cons_of_pos]
  · have hmap : (if (m.lookup k0).isSome then m else (k0, id) :: m).lookup k
        = m.lookup k := by
      split
      · rfl
      · rw [List.lookup_cons]
        have : (k == k0) = false := by
          simp [hkk]
        rw [this]
    have hfo : firstObs ((k0, id) :: l) k = firstObs l k := by
      unfold firstObs
      rw [List.find?_cons_of_neg]
      simp only [decide_eq_true_eq]
      exact fun hc => hkk hc.symm
    rw [hmap, hfo]

theorem foldDir_lookup (rows : List Row) :
    ∀ (c : ResCtx) (k : String),
      ((rows.foldl procDirRow c).belMap.lookup k)
        = ((c.belMap.lookup k).or (firstObs (rows.filterMap (obsOf 2 1)) k)) := by
  induction rows with
  | nil =>
      intro c k
      show (c.belMap.lookup k) = (c.belMap.lookup k).or (firstObs (List.filterMap (obsOf 2 1) []) k)
      cases c.belMap.lookup k <;> rfl
  | cons r t ih =>
      intro c k
      rw [List.foldl_cons, ih]
      cases ho : obsOf 2 1 r with
      | none =>
          rw [procDirRow_obs_none ho]
          have hl : (r :: t).filterMap (obsOf 2 1) = t.filterMap (obsOf 2 1) := by
            rw [List.filterMap_cons, ho]
          rw [hl]
      | some p =>
          obtain ⟨k0, id⟩ := p
          have hl : (r :: t).filterMap (obsOf 2 1)
              = (k0, id) :: t.filterMap (obsOf 2 1) := by
            rw [List.filterMap_cons, ho]
          rw [hl, procDirRow_obs_some ho]
          exact lookup_update_or c.belMap k k0 id _

theorem foldAtt_lookup (rows : List Row) :
    ∀ (c : ResCtx) (k : String),
      ((rows.foldl procAttRow c).belMap.lookup k)
        = ((c.belMap.lookup k).or (firstObs (rows.filterMap (obsOf 1 0)) k)) := by
  induction rows with
  | nil =>
      intro c k
      show (c.belMap.lookup k) = (c.belMap.lookup k).or (firstObs (List.filterMap (obsOf 1 0) []) k)
      cases c.belMap.lookup k <;> rfl
  | cons r t ih =>
      intro c k
      rw [List.foldl_cons, ih]
      cases ho : obsOf 1 0 r with
      | none =>
          rw [procAttRow_obs_none_belMap ho]
          have hl : (r :: t).filterMap (obsOf 1 0) = t.filterMap (obsOf 1 0) := by
            rw [List.filterMap_cons, ho]
          rw [hl]
      | some p =>
          obtain ⟨k0, id⟩ := p
          have hl : (r :: t).filterMap (obsOf 1 0)
              = (k0, id) :: t.filterMap (obsOf 1 0) := by
            rw [List.filterMap_cons, ho]
          rw [hl, procAttRow_obs_some ho]
          exact lookup_update_or c.belMap k k0 id _

theorem firstObs_append (l1 l2 : List (String × Nat)) (k : String) :
    firstObs (l1 ++ l2) k = (firstObs l1 k).or (firstObs l2 k) := by
  unfold firstObs
  rw [List.find?_append]
  cases l1.find? (fun p => p.1 = k) <;> rfl

/-! ## C3: precedence order, used-id recording, first-seen-wins -/

/-- C3: observations (rows carrying a non-empty matchKey, at the
directory's name/id columns C/B or the attendance sheets' columns B/A)
are processed Directory first, then Event Attendance, then Service
Attendance; every observation's extracted id lands in the used-id set,
and the mapping for each key is exactly the id of its first observation
in that precedence order — later ids for an already-mapped name are
ignored for the mapping but still occupy the used-id space. -/
theorem buildMapping_spec :
    (∀ dData eData sData k id, (k, id) ∈ obsList dData eData sData →
      id ∈ (buildCtx dData eData sData).used) ∧
    (∀ dData eData sData k,
      (buildCtx dData eData sData).belMap.lookup k
        = firstObs (obsList dData eData sData) k) := by
  constructor
  · intro d e s k id h
    unfold obsList at h
    unfold buildCtx
    rcases List.mem_append.mp h with h | h
    · rcases List.mem_append.mp h with h | h
      · have hdir := foldDir_obs_used (d.drop 1) ⟨[], []⟩ k id h
        exact foldAtt_used_mono (attRows e s) _ hdir
      · rw [show attRows e s = e.drop 1 ++ s.drop 1 from rfl, List.foldl_append]
        apply foldAtt_used_mono (s.drop 1)
        exact foldAtt_obs_used (e.drop 1) _ k id h
    · rw [show attRows e s = e.drop 1 ++ s.drop 1 from rfl, List.foldl_append]
      exact foldAtt_obs_used (s.drop 1) _ k id h
  · intro d e s k
    unfold buildCtx obsList
    rw [foldAtt_lookup, foldDir_lookup]
    rw [show ((⟨[], []⟩ : ResCtx).belMap.lookup k) = none from rfl]
    rw [show attRows e s = e.drop 1 ++ s.drop 1 from rfl, List.filterMap_append]
    rw [firstObs_append, firstObs_append, firstObs_append]
    cases firstObs ((d.drop 1).filterMap (obsOf 2 1)) k <;>
      cases firstObs ((e.drop 1).filterMap (obsOf 1 0)) k <;> rfl

/-- Witness for C3 at a concrete input: the directory holds the first
observation for `"jane"`, the event sheet a different id for the same
key; the mapping keeps the directory id while both ids are used. -/
theorem buildMapping_spec_witness :
    (1001 : Nat) ∈ (buildCtx
        [[], [.nullish, .num 1001, .str ("Jane")]]
        [[], [.num 2002, .str ("JANE "), .str ("Ev")]] [[]]).used ∧
    (2002 : Nat) ∈ (buildCtx
        [[], [.nullish, .num 1001, .str ("Jane")]]
        [[], [.num 2002, .str ("JANE "), .str ("Ev")]] [[]]).used ∧
    (buildCtx [[], [.nullish, .num 1001, .str ("Jane")]]
        [[], [.num 2002, .str ("JANE "), .str ("Ev")]] [[]]).belMap.lookup ("jane")
      = firstObs (obsList [[], [.nullish, .num 1001, .str ("Jane")]]
        [[], [.num 2002, .str ("JANE "), .str ("Ev")]] [[]]) ("jane") ∧
    (buildCtx [[], [.nullish, .num 1001, .str ("Jane")]]
        [[], [.num 2002, .str ("JANE "), .str ("Ev")]] [[]]).belMap.lookup ("jane")
      = some 1001 :=
  ⟨buildMapping_spec.1 _ _ _ ("jane") 1001 (by decide),
   buildMapping_spec.1 _ _ _ ("jane") 2002 (by decide),
   buildMapping_spec.2 _ _ _ ("jane"),
   by decide⟩

end AttendanceTracker
